import Mathlib

/-!
Shallow embedding of the RLN protocol core of zerokit (`rln/src/protocol.rs`
and `rln/src/identity.rs`).

Modelling conventions:
* The BN254 scalar field `Fr` is `ZMod bn254_p` (`Frp`) where byte-level
  behaviour matters (serialization, witness-element conversion); the purely
  algebraic operations are stated over an arbitrary field `F`, since the code
  uses only the field operations there.
* Poseidon (`crate::poseidon_hash`, not under `src/`) is an opaque hash,
  modelled as an arbitrary function parameter `posh : List F → F`.
* A Rust panic (failed `unwrap`, `assert_eq!`, slice out of bounds, `BigUint`
  underflow, division by a non-invertible element) is modelled as `none` in an
  `Option`-valued result.
* Byte strings are `List Nat`, each entry intended below 256; machine-integer
  reads are explicit base-256 arithmetic.
-/

namespace Zerokit

/-- Little-endian base-256 rendering of `n` on exactly `len` bytes
(truncating above `256 ^ len`), as produced by the fixed-width encoders. -/
def natToBytesLE : Nat → Nat → List Nat
  | 0, _ => []
  | len + 1, n => n % 256 :: natToBytesLE len (n / 256)

/-- Little-endian base-256 value of a byte list. -/
def bytesToNatLE : List Nat → Nat
  | [] => 0
  | b :: bs => b + 256 * bytesToNatLE bs

theorem natToBytesLE_length (len n : Nat) : (natToBytesLE len n).length = len := by
  induction len generalizing n with
  | zero => rfl
  | succ k ih => simp [natToBytesLE, ih]

theorem bytesToNatLE_natToBytesLE (len n : Nat) (h : n < 256 ^ len) :
    bytesToNatLE (natToBytesLE len n) = n := by
  induction len generalizing n with
  | zero =>
    simp [natToBytesLE, bytesToNatLE]
    omega
  | succ k ih =>
    have hdiv : n / 256 < 256 ^ k := by
      rw [Nat.div_lt_iff_lt_mul (by norm_num)]
      calc n < 256 ^ (k + 1) := h
        _ = 256 ^ k * 256 := by ring
    simp only [natToBytesLE, bytesToNatLE, ih (n / 256) hdiv]
    omega

/-- The struct `RLNWitnessInput` from `protocol.rs` (fields in source order);
`identity_path_index` holds the values of the `u8` entries. -/
structure RLNWitnessInput (F : Type) where
  identity_secret : F
  path_elements : List F
  identity_path_index : List Nat
  x : F
  epoch : F
  rln_identifier : F
deriving DecidableEq

/-- The struct `RLNProofValues` from `protocol.rs` (fields in source order). -/
structure RLNProofValues (F : Type) where
  y : F
  nullifier : F
  root : F
  x : F
  epoch : F
  rln_identifier : F
deriving DecidableEq

section Protocol

variable {F : Type}

/-- Loop of `compute_tree_root`: `for i in 0..identity_path_index.len()`,
indexing `path_elements[i]`; an out-of-bounds index is a Rust panic (`none`).
Leftover `path_elements` beyond the index list are ignored, as in the source. -/
def treeRootGo (posh : List F → F) : F → List F → List Nat → Option F
  | acc, _, [] => some acc
  | _, [], _ :: _ => none
  | acc, e :: es, b :: bs =>
      treeRootGo posh (if b = 0 then posh [acc, e] else posh [e, acc]) es bs

/-- The function `compute_tree_root` from `protocol.rs` (lines 386-406). -/
def compute_tree_root (posh : List F → F) (leaf : F) (path_elements : List F)
    (identity_path_index : List Nat) (hash_leaf : Bool) : Option F :=
  treeRootGo posh (if hash_leaf then posh [leaf] else leaf) path_elements
    identity_path_index

/-- The function `proof_values_from_witness` from `protocol.rs`
(lines 274-300); `none` models the panic inside `compute_tree_root`. -/
def proof_values_from_witness [CommRing F] (posh : List F → F)
    (rln_witness : RLNWitnessInput F) : Option (RLNProofValues F) :=
  let external_nullifier := posh [rln_witness.epoch, rln_witness.rln_identifier]
  let a_0 := rln_witness.identity_secret
  let a_1 := posh [a_0, external_nullifier]
  let y := a_0 + rln_witness.x * a_1
  let nullifier := posh [a_1]
  (compute_tree_root posh rln_witness.identity_secret rln_witness.path_elements
      rln_witness.identity_path_index true).map
    fun root =>
      { y := y, nullifier := nullifier, root := root, x := rln_witness.x,
        epoch := rln_witness.epoch, rln_identifier := rln_witness.rln_identifier }

/-- The function `compute_id_secret` from `protocol.rs` (lines 500-526).
Rust field division is multiplication by `inverse().unwrap()`, which panics
when the divisor is zero: that panic is the `none` branch. -/
def compute_id_secret [Field F] [DecidableEq F] (posh : List F → F)
    (share1 share2 : F × F) (external_nullifier : F) :
    Option (Except String F) :=
  let x1 := share1.1
  let y1 := share1.2
  let x2 := share2.1
  let y2 := share2.2
  if x1 - x2 = 0 then none
  else
    let a_1 := (y1 - y2) * (x1 - x2)⁻¹
    let a_0 := y1 - x1 * a_1
    let computed_a_1 := posh [a_0, external_nullifier]
    if a_1 = computed_a_1 then some (Except.ok a_0)
    else some (Except.error "Cannot recover identity_secret_hash from provided shares")

/-- The hash step of `Identity::secret_hash` from `identity.rs` (lines 48-56):
`POSEIDON.hash(vec![nullifier, trapdoor])`. Modelled from the spec: the
`BigInt` round-trips through `bigint_to_fr` / `fr_to_bigint` (`crate::util`,
not under `src/`) are the canonical mod-p bijections and are elided, so
trapdoor and nullifier are taken directly as field elements. -/
def identity_secret_hash (posh : List F → F) (trapdoor nullifier : F) : F :=
  posh [nullifier, trapdoor]

/-- The hash step of `Identity::commitment` from `identity.rs` (lines 58-63). -/
def identity_commitment (posh : List F → F) (trapdoor nullifier : F) : F :=
  posh [identity_secret_hash posh trapdoor nullifier]

/-- The deterministic core shared by `extended_keygen` and
`extended_seeded_keygen` from `protocol.rs` (lines 428-440, 465-484), with the
sampling of `identity_trapdoor` and `identity_nullifier` (thread_rng resp.
seeded ChaCha20, both external) replaced by explicit arguments. -/
def extended_keygen_from_randomness (posh : List F → F)
    (identity_trapdoor identity_nullifier : F) : F × F × F × F :=
  let identity_secret_hash := posh [identity_trapdoor, identity_nullifier]
  let id_commitment := posh [identity_secret_hash]
  (identity_trapdoor, identity_nullifier, identity_secret_hash, id_commitment)

end Protocol

/-! ### The concrete BN254 scalar field and the byte codec

The codec functions (`crate::utils`: `fr_to_bytes_le`, `bytes_le_to_fr`,
`vec_fr_to_bytes_le`, `bytes_le_to_vec_fr`, `vec_u8_to_bytes_le`,
`bytes_le_to_vec_u8`) are code of the repository that is not under `src/`;
they are modelled from the spec (sections 3 and 4.7). -/

/-- Modulus of the BN254 scalar field. -/
def bn254_p : Nat :=
  21888242871839275222246405745257275088548364400416034343698204186575808495617

instance : NeZero bn254_p := ⟨by decide⟩

/-- The BN254 scalar field `Fr` (`crate::circuit::Fr`, not under `src/`),
modelled from the spec as the integers modulo the 254-bit prime `p`. -/
abbrev Frp : Type := ZMod bn254_p

/-- Modelled from the spec: `fr_to_bytes_le` (`crate::utils`) encodes a field
element as its canonical representative on 32 little-endian bytes. -/
def fr_to_bytes_le (x : Frp) : List Nat :=
  natToBytesLE 32 x.val

/-- Modelled from the spec: `bytes_le_to_fr` (`crate::utils`) reads 32
little-endian bytes, reduces modulo `p` (canonical reduction is not enforced
on decode), and reports 32 bytes consumed. Fewer than 32 available bytes is a
Rust panic (`none`). -/
def bytes_le_to_fr (l : List Nat) : Option (Frp × Nat) :=
  if l.length < 32 then none
  else some (((bytesToNatLE (l.take 32) : Nat) : Frp), 32)

/-- Concatenation of the 32-byte encodings of a list of field elements. -/
def encFrList : List Frp → List Nat
  | [] => []
  | x :: xs => fr_to_bytes_le x ++ encFrList xs

/-- Modelled from the spec: `vec_fr_to_bytes_le` (`crate::utils`) writes a
64-bit little-endian element count followed by the 32-byte encodings. -/
def vec_fr_to_bytes_le (v : List Frp) : List Nat :=
  natToBytesLE 8 v.length ++ encFrList v

/-- Modelled from the spec: `vec_u8_to_bytes_le` (`crate::utils`) writes a
64-bit little-endian byte count followed by the bytes. -/
def vec_u8_to_bytes_le (v : List Nat) : List Nat :=
  natToBytesLE 8 v.length ++ v

/-- Reads `n` consecutive 32-byte field elements. -/
def readFrs : Nat → List Nat → Option (List Frp)
  | 0, _ => some []
  | n + 1, l =>
    (bytes_le_to_fr l).bind fun p =>
      (readFrs n (l.drop p.2)).map fun xs => p.1 :: xs

/-- Modelled from the spec: `bytes_le_to_vec_fr` (`crate::utils`) reads a
64-bit little-endian element count, then that many 32-byte field elements,
reporting `8 + 32 * count` bytes consumed; missing bytes are a panic. -/
def bytes_le_to_vec_fr (l : List Nat) : Option (List Frp × Nat) :=
  if l.length < 8 then none
  else
    let n := bytesToNatLE (l.take 8)
    (readFrs n (l.drop 8)).map fun v => (v, 8 + 32 * n)

/-- Modelled from the spec: `bytes_le_to_vec_u8` (`crate::utils`) reads a
64-bit little-endian byte count, then that many bytes, reporting `8 + count`
bytes consumed; missing bytes are a panic. -/
def bytes_le_to_vec_u8 (l : List Nat) : Option (List Nat × Nat) :=
  if l.length < 8 then none
  else
    let n := bytesToNatLE (l.take 8)
    if (l.drop 8).length < n then none
    else some ((l.drop 8).take n, 8 + n)

/-- The function `serialize_witness` from `protocol.rs` (lines 94-105). -/
def serialize_witness (rln_witness : RLNWitnessInput Frp) : List Nat :=
  fr_to_bytes_le rln_witness.identity_secret ++
    vec_fr_to_bytes_le rln_witness.path_elements ++
    vec_u8_to_bytes_le rln_witness.identity_path_index ++
    fr_to_bytes_le rln_witness.x ++
    fr_to_bytes_le rln_witness.epoch ++
    fr_to_bytes_le rln_witness.rln_identifier

/-- The function `deserialize_witness` from `protocol.rs` (lines 107-142).
Each reader consumes from the remaining slice; the final
`assert_eq!(serialized.len(), all_read)` panics (`none`) on a length
mismatch, otherwise the witness and the total read count are returned. -/
def deserialize_witness (serialized : List Nat) :
    Option (RLNWitnessInput Frp × Nat) :=
  (bytes_le_to_fr serialized).bind fun p1 =>
    let l1 := serialized.drop p1.2
    (bytes_le_to_vec_fr l1).bind fun p2 =>
      let l2 := l1.drop p2.2
      (bytes_le_to_vec_u8 l2).bind fun p3 =>
        let l3 := l2.drop p3.2
        (bytes_le_to_fr l3).bind fun p4 =>
          let l4 := l3.drop p4.2
          (bytes_le_to_fr l4).bind fun p5 =>
            let l5 := l4.drop p5.2
            (bytes_le_to_fr l5).bind fun p6 =>
              let all_read := p1.2 + p2.2 + p3.2 + p4.2 + p5.2 + p6.2
              if serialized.length = all_read then
                some
                  ({ identity_secret := p1.1, path_elements := p2.1,
                     identity_path_index := p3.1, x := p4.1, epoch := p5.1,
                     rln_identifier := p6.1 }, all_read)
              else none

/-- The function `serialize_proof_values` from `protocol.rs` (lines 302-313):
field order `root, epoch, x, y, nullifier, rln_identifier`. -/
def serialize_proof_values (rln_proof_values : RLNProofValues Frp) : List Nat :=
  fr_to_bytes_le rln_proof_values.root ++
    fr_to_bytes_le rln_proof_values.epoch ++
    fr_to_bytes_le rln_proof_values.x ++
    fr_to_bytes_le rln_proof_values.y ++
    fr_to_bytes_le rln_proof_values.nullifier ++
    fr_to_bytes_le rln_proof_values.rln_identifier

/-- The function `deserialize_proof_values` from `protocol.rs`
(lines 317-349); it reads six field elements in wire order and performs no
trailing-byte check. -/
def deserialize_proof_values (serialized : List Nat) :
    Option (RLNProofValues Frp × Nat) :=
  (bytes_le_to_fr serialized).bind fun p1 =>
    let l1 := serialized.drop p1.2
    (bytes_le_to_fr l1).bind fun p2 =>
      let l2 := l1.drop p2.2
      (bytes_le_to_fr l2).bind fun p3 =>
        let l3 := l2.drop p3.2
        (bytes_le_to_fr l3).bind fun p4 =>
          let l4 := l3.drop p4.2
          (bytes_le_to_fr l4).bind fun p5 =>
            let l5 := l4.drop p5.2
            (bytes_le_to_fr l5).bind fun p6 =>
              some
                ({ y := p4.1, nullifier := p5.1, root := p1.1, x := p3.1,
                   epoch := p2.1, rln_identifier := p6.1 },
                 p1.2 + p2.2 + p3.2 + p4.2 + p5.2 + p6.2)

/-- The function `hash_to_field` from `protocol.rs` (lines 487-498), with
Keccak-256 (external crate `tiny_keccak`) as a function parameter that is
expected to return 32-byte digests. -/
def hash_to_field (keccak : List Nat → List Nat) (signal : List Nat) :
    Option Frp :=
  (bytes_le_to_fr (keccak signal)).map Prod.fst

/-- The function `proof_inputs_to_rln_witness` from `protocol.rs`
(lines 148-187). The Poseidon Merkle tree (`crate::poseidon_tree`, not under
`src/`) is modelled from the spec as a total map `tree_proof` from an index to
the `(path_elements, path_index)` of its membership proof, and the constant
`RLN_IDENTIFIER` (`crate::public`, not under `src/`) as an arbitrary byte
string. `all_read` accumulates exactly the reads the source counts:
32 (identity_secret) + 8 (id_index) + 32 (epoch) + 8 (signal_len); the signal
slice is taken without advancing `all_read`. Out-of-range slicing panics. -/
def proof_inputs_to_rln_witness (keccak : List Nat → List Nat)
    (tree_proof : Nat → List Frp × List Nat) (rln_identifier_bytes : List Nat)
    (serialized : List Nat) : Option (RLNWitnessInput Frp × Nat) :=
  (bytes_le_to_fr serialized).bind fun p1 =>
    let l1 := serialized.drop p1.2
    if l1.length < 8 then none
    else
      let id_index := bytesToNatLE (l1.take 8)
      let l2 := l1.drop 8
      (bytes_le_to_fr l2).bind fun p3 =>
        let l3 := l2.drop p3.2
        if l3.length < 8 then none
        else
          let signal_len := bytesToNatLE (l3.take 8)
          let l4 := l3.drop 8
          if l4.length < signal_len then none
          else
            let signal := l4.take signal_len
            let pe_ipi := tree_proof id_index
            (hash_to_field keccak signal).bind fun x =>
              (hash_to_field keccak rln_identifier_bytes).bind
                fun rln_identifier =>
                  some
                    ({ identity_secret := p1.1, path_elements := pe_ipi.1,
                       identity_path_index := pe_ipi.2, x := x, epoch := p3.1,
                       rln_identifier := rln_identifier },
                     p1.2 + 8 + p3.2 + 8)

/-- Conversion of one signed witness entry, from `calculate_witness_element`
in `protocol.rs` (lines 542-562). A negative entry `w` is mapped to
`modulus - |w|` computed on `BigUint`, whose subtraction panics (`none`) when
`|w|` exceeds the modulus; the result is then reduced modulo `p` by the
`From<BigUint>` conversion, as is a non-negative entry. -/
def witness_element_from_bigint (w : Int) : Option Frp :=
  if w < 0 then
    if bn254_p < w.natAbs then none
    else some ((bn254_p - w.natAbs : Nat) : Frp)
  else some ((w.toNat : Nat) : Frp)

/-- The function `calculate_witness_element` from `protocol.rs`
(lines 542-562), instantiated at the BN254 engine as in
`generate_proof_with_witness`; a panic on any entry aborts the whole map. -/
def calculate_witness_element : List Int → Option (List Frp)
  | [] => some []
  | w :: ws =>
    (witness_element_from_bigint w).bind fun x =>
      (calculate_witness_element ws).map fun xs => x :: xs

/-- The function `generate_proof_with_witness` from `protocol.rs`
(lines 564-603), with Groth16 proving (external crate `ark-groth16`, its
randomness `r, s` included) as a function parameter that may fail with a
synthesis error. The source calls `.unwrap()` both on the converted witness
and on the proving result, so either failure is a panic (`none`): no
`Err` value is ever returned, although the return type is
`Result<ArkProof, ProofError>`. -/
def generate_proof_with_witness {Pf : Type}
    (groth16_prove : List Frp → Except String Pf) (witness : List Int) :
    Option Pf :=
  match calculate_witness_element witness with
  | none => none
  | some full_assignment =>
    match groth16_prove full_assignment with
    | Except.error _ => none
    | Except.ok proof => some proof

/-! ### Spec-side definitions (for the refinement claim about
`proof_values_from_witness`) -/

/-- Written from the spec's words (section 4.2): the Merkle recomputation with
`hash_leaf` set, folding over the levels, `b[i] = 0` hashing `(acc, e[i])` and
otherwise `(e[i], acc)`. -/
def spec_merkle_root {F : Type} (posh : List F → F) (leaf : F) (e : List F)
    (b : List Nat) : F :=
  (e.zip b).foldl
    (fun acc p => if p.2 = 0 then posh [acc, p.1] else posh [p.1, acc])
    (posh [leaf])

/-- Written from the spec's words (section 4.3): the published tuple derived
from a witness. -/
def spec_proof_values {F : Type} [CommRing F] (posh : List F → F)
    (w : RLNWitnessInput F) : RLNProofValues F :=
  let external_nullifier := posh [w.epoch, w.rln_identifier]
  let a0 := w.identity_secret
  let a1 := posh [a0, external_nullifier]
  { y := a0 + w.x * a1, nullifier := posh [a1],
    root := spec_merkle_root posh w.identity_secret w.path_elements
      w.identity_path_index,
    x := w.x, epoch := w.epoch, rln_identifier := w.rln_identifier }

/-! ### Concrete instances used by witnesses and counterexamples

The protocol theorems are stated over an arbitrary field and an arbitrary
hash; these small concrete stand-ins let the closed witness statements be
checked by evaluation. -/

instance : Fact (Nat.Prime 11) := ⟨by norm_num⟩

/-- A concrete asymmetric stand-in for the abstract Poseidon parameter over
the field with 11 elements. -/
def posh11 : List (ZMod 11) → ZMod 11 :=
  fun l => l.foldl (fun a b => a * 5 + b + 1) 3

/-- A concrete stand-in for Keccak-256: a constant 32-byte digest. -/
def keccak0 : List Nat → List Nat := fun _ => List.replicate 32 0

/-- A concrete stand-in for the Merkle tree membership-proof lookup: every
index resolves to the empty path. -/
def tree0 : Nat → List Frp × List Nat := fun _ => ([], [])

/-- A concrete 81-byte prove-input blob: zero identity secret (32 bytes),
zero index (8 bytes), zero epoch (32 bytes), signal length 1 (8 bytes), and a
one-byte signal. -/
def blob81 : List Nat :=
  List.replicate 32 0 ++ List.replicate 8 0 ++ List.replicate 32 0 ++
    (1 :: List.replicate 7 0) ++ [7]

/-- A concrete 82-byte prove-input blob with a two-byte signal. -/
def blob82 : List Nat :=
  List.replicate 32 0 ++ List.replicate 8 0 ++ List.replicate 32 0 ++
    (2 :: List.replicate 7 0) ++ [7, 9]

/-- A concrete depth-1 witness over the BN254 field. -/
def cw5 : RLNWitnessInput Frp :=
  { identity_secret := 1, path_elements := [2], identity_path_index := [1],
    x := 3, epoch := 4, rln_identifier := 5 }

/-- Concrete proof values over the BN254 field. -/
def cpv5 : RLNProofValues Frp :=
  { y := 1, nullifier := 2, root := 3, x := 4, epoch := 5,
    rln_identifier := 6 }

/-- A concrete depth-0 witness over the BN254 field. -/
def cw8a : RLNWitnessInput Frp :=
  { identity_secret := 1, path_elements := [], identity_path_index := [],
    x := 0, epoch := 0, rln_identifier := 0 }

/-- A second concrete depth-1 witness over the BN254 field. -/
def cw8b : RLNWitnessInput Frp :=
  { identity_secret := 2, path_elements := [1], identity_path_index := [0],
    x := 3, epoch := 4, rln_identifier := 5 }

/-- A concrete witness whose path-index byte is 255, outside {0, 1}. -/
def cw10 : RLNWitnessInput Frp :=
  { identity_secret := 0, path_elements := [], identity_path_index := [255],
    x := 0, epoch := 0, rln_identifier := 0 }

/-! ### Codec lemmas -/

theorem take_append_of_length {α : Type} (l1 l2 : List α) (n : Nat)
    (h : l1.length = n) : (l1 ++ l2).take n = l1 := by
  subst h; exact List.take_left l1 l2

theorem drop_append_of_length {α : Type} (l1 l2 : List α) (n : Nat)
    (h : l1.length = n) : (l1 ++ l2).drop n = l2 := by
  subst h; exact List.drop_left l1 l2

theorem fr_to_bytes_le_length (x : Frp) : (fr_to_bytes_le x).length = 32 :=
  natToBytesLE_length 32 x.val

theorem bytes_le_to_fr_append (x : Frp) (rest : List Nat) :
    bytes_le_to_fr (fr_to_bytes_le x ++ rest) = some (x, 32) := by
  have hlen : (fr_to_bytes_le x).length = 32 := fr_to_bytes_le_length x
  have hval : x.val < 256 ^ 32 :=
    lt_trans (ZMod.val_lt x) (by decide : bn254_p < 256 ^ 32)
  have hno : ¬ ((fr_to_bytes_le x ++ rest).length < 32) := by
    simp [List.length_append, hlen]
  simp only [bytes_le_to_fr, if_neg hno, take_append_of_length _ _ _ hlen]
  rw [show fr_to_bytes_le x = natToBytesLE 32 x.val from rfl,
    bytesToNatLE_natToBytesLE 32 x.val hval, ZMod.natCast_rightInverse x]

theorem drop_fr_append (x : Frp) (rest : List Nat) :
    (fr_to_bytes_le x ++ rest).drop 32 = rest :=
  drop_append_of_length _ _ _ (fr_to_bytes_le_length x)

theorem encFrList_length (v : List Frp) : (encFrList v).length = 32 * v.length := by
  induction v with
  | nil => rfl
  | cons x xs ih =>
    simp [encFrList, List.length_append, fr_to_bytes_le_length, ih]
    ring

theorem readFrs_append (v : List Frp) (rest : List Nat) :
    readFrs v.length (encFrList v ++ rest) = some v := by
  induction v generalizing rest with
  | nil => rfl
  | cons x xs ih =>
    show readFrs (xs.length + 1) ((fr_to_bytes_le x ++ encFrList xs) ++ rest) =
      some (x :: xs)
    rw [List.append_assoc]
    simp only [readFrs, bytes_le_to_fr_append, Option.some_bind, drop_fr_append,
      ih, Option.map_some']

theorem vec_fr_to_bytes_le_length (v : List Frp) :
    (vec_fr_to_bytes_le v).length = 8 + 32 * v.length := by
  simp [vec_fr_to_bytes_le, List.length_append, natToBytesLE_length,
    encFrList_length]

theorem bytes_le_to_vec_fr_append (v : List Frp) (rest : List Nat)
    (h : v.length < 2 ^ 64) :
    bytes_le_to_vec_fr (vec_fr_to_bytes_le v ++ rest) =
      some (v, 8 + 32 * v.length) := by
  have hc : (natToBytesLE 8 v.length).length = 8 := natToBytesLE_length 8 _
  have h' : v.length < 256 ^ 8 := by
    calc v.length < 2 ^ 64 := h
      _ = 256 ^ 8 := by norm_num
  show bytes_le_to_vec_fr ((natToBytesLE 8 v.length ++ encFrList v) ++ rest) = _
  rw [List.append_assoc]
  have hno : ¬ ((natToBytesLE 8 v.length ++ (encFrList v ++ rest)).length < 8) := by
    simp [List.length_append, hc]
  simp only [bytes_le_to_vec_fr, if_neg hno, take_append_of_length _ _ _ hc,
    drop_append_of_length _ _ _ hc, bytesToNatLE_natToBytesLE 8 v.length h',
    readFrs_append, Option.map_some']

theorem drop_vec_fr_append (v : List Frp) (rest : List Nat) :
    (vec_fr_to_bytes_le v ++ rest).drop (8 + 32 * v.length) = rest :=
  drop_append_of_length _ _ _ (vec_fr_to_bytes_le_length v)

theorem vec_u8_to_bytes_le_length (v : List Nat) :
    (vec_u8_to_bytes_le v).length = 8 + v.length := by
  simp [vec_u8_to_bytes_le, List.length_append, natToBytesLE_length]

theorem bytes_le_to_vec_u8_append (v : List Nat) (rest : List Nat)
    (h : v.length < 2 ^ 64) :
    bytes_le_to_vec_u8 (vec_u8_to_bytes_le v ++ rest) =
      some (v, 8 + v.length) := by
  have hc : (natToBytesLE 8 v.length).length = 8 := natToBytesLE_length 8 _
  have h' : v.length < 256 ^ 8 := by
    calc v.length < 2 ^ 64 := h
      _ = 256 ^ 8 := by norm_num
  show bytes_le_to_vec_u8 ((natToBytesLE 8 v.length ++ v) ++ rest) = _
  rw [List.append_assoc]
  have hno : ¬ ((natToBytesLE 8 v.length ++ (v ++ rest)).length < 8) := by
    simp [List.length_append, hc]
  simp only [bytes_le_to_vec_u8, if_neg hno, take_append_of_length _ _ _ hc,
    drop_append_of_length _ _ _ hc, bytesToNatLE_natToBytesLE 8 v.length h']
  rw [if_neg (by simp [List.length_append]),
    take_append_of_length v rest v.length rfl]

theorem drop_vec_u8_append (v : List Nat) (rest : List Nat) :
    (vec_u8_to_bytes_le v ++ rest).drop (8 + v.length) = rest :=
  drop_append_of_length _ _ _ (vec_u8_to_bytes_le_length v)

theorem serialize_witness_length (w : RLNWitnessInput Frp) :
    (serialize_witness w).length =
      144 + 32 * w.path_elements.length + w.identity_path_index.length := by
  simp [serialize_witness, List.length_append, fr_to_bytes_le_length,
    vec_fr_to_bytes_le_length, vec_u8_to_bytes_le_length]
  ring

/-- Round-trip with an arbitrary suffix: the decoder reads back exactly the
serialized witness and then applies the whole-buffer length check, so it
succeeds exactly when the suffix is empty. -/
theorem deserialize_witness_serialize_append (w : RLNWitnessInput Frp)
    (rest : List Nat) (hk : w.path_elements.length < 2 ^ 64)
    (hj : w.identity_path_index.length < 2 ^ 64) :
    deserialize_witness (serialize_witness w ++ rest) =
      if rest = [] then some (w, (serialize_witness w).length) else none := by
  rw [serialize_witness_length]
  simp only [deserialize_witness, serialize_witness, List.append_assoc,
    bytes_le_to_fr_append, Option.some_bind, drop_fr_append,
    bytes_le_to_vec_fr_append w.path_elements _ hk,
    drop_vec_fr_append,
    bytes_le_to_vec_u8_append w.identity_path_index _ hj,
    drop_vec_u8_append]
  by_cases hr : rest = []
  · subst hr
    rw [if_pos rfl, if_pos (by
      simp [List.length_append, fr_to_bytes_le_length,
        vec_fr_to_bytes_le_length, vec_u8_to_bytes_le_length]
      omega)]
    have harith :
        32 + (8 + 32 * w.path_elements.length) +
            (8 + w.identity_path_index.length) + 32 + 32 + 32 =
          144 + 32 * w.path_elements.length + w.identity_path_index.length := by
      ring
    rw [harith]
  · rw [if_neg hr, if_neg (by
      simp [List.length_append, fr_to_bytes_le_length,
        vec_fr_to_bytes_le_length, vec_u8_to_bytes_le_length]
      have : rest.length ≠ 0 := by
        simpa [List.length_eq_zero] using hr
      omega)]

theorem deserialize_proof_values_serialize_append (v : RLNProofValues Frp)
    (rest : List Nat) :
    deserialize_proof_values (serialize_proof_values v ++ rest) =
      some (v, 192) := by
  simp only [deserialize_proof_values, serialize_proof_values,
    List.append_assoc, bytes_le_to_fr_append, Option.some_bind, drop_fr_append]

/-! ### Protocol lemmas -/

theorem treeRootGo_eq_foldl {F : Type} (posh : List F → F) (acc : F)
    (pe : List F) (ipi : List Nat) (h : pe.length = ipi.length) :
    treeRootGo posh acc pe ipi =
      some ((pe.zip ipi).foldl
        (fun a p => if p.2 = 0 then posh [a, p.1] else posh [p.1, a]) acc) := by
  induction ipi generalizing pe acc with
  | nil =>
    cases pe with
    | nil => rfl
    | cons e es => simp at h
  | cons b bs ih =>
    cases pe with
    | nil => simp at h
    | cons e es =>
      simp only [List.length_cons, Nat.add_right_cancel_iff] at h
      simp only [treeRootGo, List.zip_cons_cons, List.foldl_cons]
      exact ih _ _ h

theorem treeRootGo_set_nonzero {F : Type} (posh : List F → F) (acc : F)
    (pe : List F) (ipi : List Nat) (i b : Nat) (hget : ipi.get? i = some b)
    (hb : b ≠ 0) :
    treeRootGo posh acc pe (ipi.set i 1) = treeRootGo posh acc pe ipi := by
  induction ipi generalizing pe acc i with
  | nil => simp at hget
  | cons hd tl ih =>
    cases i with
    | zero =>
      have hhd : hd = b := by simpa using hget
      subst hhd
      cases pe with
      | nil => rfl
      | cons e es =>
        simp only [List.set, treeRootGo, if_neg one_ne_zero, if_neg hb]
    | succ i' =>
      have hget' : tl.get? i' = some b := by simpa using hget
      cases pe with
      | nil => rfl
      | cons e es =>
        simp only [List.set, treeRootGo]
        exact ih _ _ _ hget'

theorem witness_element_from_bigint_in_range (w : Int)
    (h : -(bn254_p : Int) ≤ w) :
    witness_element_from_bigint w = some ((w : Int) : Frp) := by
  unfold witness_element_from_bigint
  by_cases hw : w < 0
  · have habs : w.natAbs ≤ bn254_p := by omega
    rw [if_pos hw, if_neg (by omega)]
    have h1 : ((bn254_p - w.natAbs : Nat) : Frp) = -((w.natAbs : Nat) : Frp) := by
      rw [Nat.cast_sub habs, ZMod.natCast_self, zero_sub]
    have h2 : ((w : Int) : Frp) = -((w.natAbs : Nat) : Frp) := by
      have hw' : (w : Int) = -(w.natAbs : Int) := by omega
      conv_lhs => rw [hw']
      rw [Int.cast_neg, Int.cast_natCast]
    rw [h1, h2]
  · rw [if_neg hw]
    have : ((w.toNat : Nat) : Int) = w := Int.toNat_of_nonneg (by omega)
    rw [show ((w.toNat : Nat) : Frp) = ((w.toNat : Int) : Frp) by push_cast; rfl,
      this]

theorem bytes_le_to_fr_of_length (l rest : List Nat) (h : l.length = 32) :
    bytes_le_to_fr (l ++ rest) = some (((bytesToNatLE l : Nat) : Frp), 32) := by
  have hno : ¬ ((l ++ rest).length < 32) := by simp [List.length_append, h]
  simp only [bytes_le_to_fr, if_neg hno, take_append_of_length _ _ _ h]

theorem hash_to_field_of_digest_length (keccak : List Nat → List Nat)
    (m : List Nat) (h : (keccak m).length = 32) :
    hash_to_field keccak m =
      some (((bytesToNatLE ((keccak m).take 32) : Nat) : Frp)) := by
  simp only [hash_to_field, bytes_le_to_fr, h, if_neg (by omega : ¬ 32 < 32),
    Option.map_some']

/-! ### Claim theorems -/

/-- C1: for every identity secret, epoch and rln_identifier, and any two
witnesses sharing those three fields with distinct x values, feeding the
(x, y) pairs of their `proof_values_from_witness` outputs and
`Poseidon(epoch, rln_identifier)` to `compute_id_secret` recovers the
identity secret as `Ok`. -/
theorem c1_recover_secret {F : Type} [Field F] [DecidableEq F]
    (posh : List F → F) (w1 w2 : RLNWitnessInput F)
    (pv1 pv2 : RLNProofValues F)
    (hsec : w2.identity_secret = w1.identity_secret)
    (hep : w2.epoch = w1.epoch)
    (hrid : w2.rln_identifier = w1.rln_identifier)
    (hx : w1.x ≠ w2.x)
    (h1 : proof_values_from_witness posh w1 = some pv1)
    (h2 : proof_values_from_witness posh w2 = some pv2) :
    compute_id_secret posh (pv1.x, pv1.y) (pv2.x, pv2.y)
        (posh [w1.epoch, w1.rln_identifier]) =
      some (Except.ok w1.identity_secret) := by
  obtain ⟨r1, hr1, hpv1⟩ := Option.map_eq_some'.mp h1
  obtain ⟨r2, hr2, hpv2⟩ := Option.map_eq_some'.mp h2
  subst hpv1
  subst hpv2
  dsimp only
  rw [hsec, hep, hrid]
  have hq : w1.x - w2.x ≠ 0 := sub_ne_zero.mpr hx
  set s := w1.identity_secret with hs
  set A := posh [s, posh [w1.epoch, w1.rln_identifier]] with hA
  simp only [compute_id_secret]
  rw [if_neg hq]
  have ha1 : (s + w1.x * A - (s + w2.x * A)) * (w1.x - w2.x)⁻¹ = A := by
    have hdiff : s + w1.x * A - (s + w2.x * A) = (w1.x - w2.x) * A := by ring
    rw [hdiff, mul_comm (w1.x - w2.x) A, mul_assoc, mul_inv_cancel₀ hq,
      mul_one]
  rw [ha1]
  have ha0 : s + w1.x * A - w1.x * A = s := by ring
  rw [ha0, if_pos rfl]

/-- Witness for C1 at a concrete instance over the field with 11 elements:
with identity secret 3, epoch 0, rln_identifier 2 the two shares are
(1, 6) and (2, 9), and recovery returns `Ok 3`. -/
theorem c1_recover_secret_witness :
    compute_id_secret posh11 (1, 6) (2, 9) 6 = some (Except.ok 3) := by
  have h := c1_recover_secret posh11
    { identity_secret := 3, path_elements := [], identity_path_index := [],
      x := 1, epoch := 0, rln_identifier := 2 }
    { identity_secret := 3, path_elements := [], identity_path_index := [],
      x := 2, epoch := 0, rln_identifier := 2 }
    { y := 6, nullifier := 8, root := 8, x := 1, epoch := 0,
      rln_identifier := 2 }
    { y := 9, nullifier := 8, root := 8, x := 2, epoch := 0,
      rln_identifier := 2 }
    rfl rfl rfl (by decide) (by decide) (by decide)
  exact h

/-- C2: `proof_values_from_witness` returns exactly the tuple of the spec
algorithm (section 4.3 with the Merkle recomputation of section 4.2),
whenever the witness has as many path elements as path-index entries. -/
theorem c2_proof_values_eq_spec {F : Type} [CommRing F] (posh : List F → F)
    (w : RLNWitnessInput F)
    (hlen : w.path_elements.length = w.identity_path_index.length) :
    proof_values_from_witness posh w = some (spec_proof_values posh w) := by
  simp only [proof_values_from_witness, compute_tree_root,
    treeRootGo_eq_foldl posh _ _ _ hlen, Option.map_some', spec_proof_values,
    spec_merkle_root, if_true]

/-- Witness for C2 at a concrete witness of depth 1. -/
theorem c2_proof_values_eq_spec_witness :
    proof_values_from_witness posh11
        { identity_secret := 3, path_elements := [4],
          identity_path_index := [1], x := 1, epoch := 0,
          rln_identifier := 2 } =
      some (spec_proof_values posh11
        { identity_secret := 3, path_elements := [4],
          identity_path_index := [1], x := 1, epoch := 0,
          rln_identifier := 2 }) :=
  c2_proof_values_eq_spec posh11 _ rfl

/-- C3 counterexample: the claim is false for `extended_keygen`. At trapdoor
0 and nullifier 1 over the field with 11 elements, with an asymmetric hash
(as Poseidon is), the secret hash that `extended_keygen` derives differs from
`Poseidon(nullifier, trapdoor)` (the order the seeded `Identity` type uses). -/
theorem c3_counterexample :
    (extended_keygen_from_randomness posh11 0 1).2.2.1 ≠
      identity_secret_hash posh11 0 1 := by decide

/-- C3 amended: the seeded `Identity` type hashes `(nullifier, trapdoor)`,
while `extended_keygen` / `extended_seeded_keygen` hash
`(trapdoor, nullifier)`; in every family the commitment is the hash of the
secret hash. -/
theorem c3_argument_orders {F : Type} (posh : List F → F) (t n : F) :
    identity_secret_hash posh t n = posh [n, t] ∧
    identity_commitment posh t n = posh [identity_secret_hash posh t n] ∧
    (extended_keygen_from_randomness posh t n).2.2.1 = posh [t, n] ∧
    (extended_keygen_from_randomness posh t n).2.2.2 =
      posh [(extended_keygen_from_randomness posh t n).2.2.1] :=
  ⟨rfl, rfl, rfl, rfl⟩

/-- C4: evaluation at the failing input. When the two shares have equal x
coordinates, `compute_id_secret` does not return an error value: the division
`(y1 - y2) / (x1 - x2)` calls `inverse().unwrap()` on zero and panics
(modelled as `none`). -/
theorem c4_equal_x_panics :
    compute_id_secret posh11 (5, 1) (5, 0) 7 = none := rfl

/-- C5: both serializers round-trip: `deserialize_witness` on a serialized
witness returns the witness together with the full byte length, and
`deserialize_proof_values` on serialized proof values returns the values
together with the consumed count 192. The hypotheses state that the witness
is representable in Rust (`u8` path-index entries, `u64` length prefixes). -/
theorem c5_roundtrip (w : RLNWitnessInput Frp) (v : RLNProofValues Frp)
    (hk : w.path_elements.length < 2 ^ 64)
    (hj : w.identity_path_index.length < 2 ^ 64)
    (hb : ∀ b ∈ w.identity_path_index, b < 256) :
    deserialize_witness (serialize_witness w) =
        some (w, (serialize_witness w).length) ∧
      deserialize_proof_values (serialize_proof_values v) = some (v, 192) := by
  refine ⟨?_, ?_⟩
  · have h := deserialize_witness_serialize_append w [] hk hj
    simpa using h
  · have h := deserialize_proof_values_serialize_append v []
    simpa using h

/-- Witness for C5 at a concrete depth-1 witness and concrete proof values. -/
theorem c5_roundtrip_witness :
    deserialize_witness (serialize_witness cw5) =
        some (cw5, (serialize_witness cw5).length) ∧
      deserialize_proof_values (serialize_proof_values cpv5) =
        some (cpv5, 192) :=
  c5_roundtrip cw5 cpv5 (by decide) (by decide) (by decide)

/-- C6 counterexample: at the negative entry `-(p + 1)` the conversion does
not produce `p - ((p + 1) mod p) = p - 1`: the `BigUint` subtraction
`modulus - |w|` underflows and panics (`none`), so the function is not total. -/
theorem c6_counterexample :
    calculate_witness_element [-(bn254_p : Int) - 1] ≠
        some [((bn254_p - 1 : Nat) : Frp)] ∧
      calculate_witness_element [-(bn254_p : Int) - 1] = none := by
  constructor
  · decide
  · rfl

/-- C6 amended: on every list whose entries all satisfy `-p ≤ v` the
conversion is exact reduction modulo `p` (negative `-k` maps to `p - k`,
which is `p - (k mod p)` there); entries below `-p` instead panic, as the
counterexample shows. -/
theorem c6_witness_element_conversion (l : List Int)
    (h : ∀ v ∈ l, -(bn254_p : Int) ≤ v) :
    calculate_witness_element l = some (l.map fun v => ((v : Int) : Frp)) := by
  induction l with
  | nil => rfl
  | cons w ws ih =>
    have hw : -(bn254_p : Int) ≤ w := h w (List.mem_cons_self w ws)
    have hws : ∀ v ∈ ws, -(bn254_p : Int) ≤ v :=
      fun v hv => h v (List.mem_cons_of_mem w hv)
    simp only [calculate_witness_element, List.map_cons,
      witness_element_from_bigint_in_range w hw, Option.some_bind, ih hws,
      Option.map_some']

/-- Witness for the amended C6 at the concrete list `[2, -1]`. -/
theorem c6_witness_element_conversion_witness :
    calculate_witness_element [2, -1] =
      some ([2, -1].map fun v => ((v : Int) : Frp)) :=
  c6_witness_element_conversion [2, -1] (by decide)

/-- C7 counterexample: on a well-formed 81-byte prove-input blob with
signal length 1, `proof_inputs_to_rln_witness` reports 80 consumed bytes,
not `80 + signal_len = 81`: the signal bytes are parsed into `x` but never
added to `all_read`. -/
theorem c7_counterexample :
    (proof_inputs_to_rln_witness keccak0 tree0 [] blob81).map Prod.snd ≠
        some 81 ∧
      (proof_inputs_to_rln_witness keccak0 tree0 [] blob81).map Prod.snd =
        some 80 := by
  constructor
  · decide
  · decide

/-- C7 amended: for every well-formed prove-input blob
`identity_secret (32) ++ id_index (8) ++ epoch (32) ++ signal_len (8) ++
signal`, the returned consumed-byte count is 80 (the reads before the
signal), regardless of the signal length. -/
theorem c7_consumed_count (keccak : List Nat → List Nat)
    (hkec : ∀ m, (keccak m).length = 32)
    (tree_proof : Nat → List Frp × List Nat) (rid_bytes : List Nat)
    (sb ib eb lb signal : List Nat)
    (hsb : sb.length = 32) (hib : ib.length = 8) (heb : eb.length = 32)
    (hlb : lb.length = 8) (hsig : bytesToNatLE lb = signal.length) :
    (proof_inputs_to_rln_witness keccak tree_proof rid_bytes
        (sb ++ ib ++ eb ++ lb ++ signal)).map Prod.snd = some 80 := by
  simp only [List.append_assoc]
  have hno1 : ¬ ((ib ++ (eb ++ (lb ++ signal))).length < 8) := by
    simp [List.length_append, hib]
  have hno2 : ¬ ((lb ++ signal).length < 8) := by
    simp [List.length_append, hlb]
  have htk : (lb ++ signal).take 8 = lb := take_append_of_length _ _ _ hlb
  have hno3 : ¬ (signal.length < bytesToNatLE ((lb ++ signal).take 8)) := by
    rw [htk, hsig]
    omega
  simp only [proof_inputs_to_rln_witness,
    bytes_le_to_fr_of_length sb _ hsb, Option.some_bind,
    drop_append_of_length sb _ 32 hsb, if_neg hno1,
    drop_append_of_length ib _ 8 hib,
    bytes_le_to_fr_of_length eb _ heb,
    drop_append_of_length eb _ 32 heb, if_neg hno2,
    drop_append_of_length lb _ 8 hlb, if_neg hno3,
    hash_to_field_of_digest_length keccak _ (hkec _),
    Option.map_some']

/-- Witness for the amended C7 at a concrete 82-byte blob (two-byte signal). -/
theorem c7_consumed_count_witness :
    (proof_inputs_to_rln_witness keccak0 tree0 [] blob82).map Prod.snd =
      some 80 := by
  have h := c7_consumed_count keccak0 (fun m => by simp [keccak0]) tree0 []
    (List.replicate 32 0) (List.replicate 8 0) (List.replicate 32 0)
    (2 :: List.replicate 7 0) [7, 9] (by decide) (by decide) (by decide)
    (by decide) (by decide)
  exact h

/-- C8 counterexample: on a well-formed serialized witness followed by one
trailing byte, `deserialize_witness` does not return an error value to the
caller: its `assert_eq!(serialized.len(), all_read)` panics (`none`) — the
function's return type has no error channel at all. -/
theorem c8_counterexample :
    deserialize_witness (serialize_witness cw8a ++ [0]) = none := by
  have h := deserialize_witness_serialize_append cw8a [0]
    (by decide) (by decide)
  simpa using h

/-- C8 amended: a serialized witness followed by any nonempty trailing bytes
is rejected, but by an `assert_eq!` panic rather than a returned error: the
result is the panic, never a witness. -/
theorem c8_trailing_bytes_panic (w : RLNWitnessInput Frp) (rest : List Nat)
    (hk : w.path_elements.length < 2 ^ 64)
    (hj : w.identity_path_index.length < 2 ^ 64) (hr : rest ≠ []) :
    deserialize_witness (serialize_witness w ++ rest) = none := by
  rw [deserialize_witness_serialize_append w rest hk hj, if_neg hr]

/-- Witness for the amended C8 at a concrete witness with two trailing bytes. -/
theorem c8_trailing_bytes_panic_witness :
    deserialize_witness (serialize_witness cw8b ++ [9, 9]) = none :=
  c8_trailing_bytes_panic cw8b [9, 9] (by decide) (by decide) (by decide)

/-- C9: evaluation at the failing inputs. `generate_proof_with_witness`
never returns an error value: on a witness entry below `-p` the conversion
result is `unwrap`ped after `map_err(WitnessError)`, so the failure panics
(`none`); and a Groth16 proving failure is likewise `unwrap`ped instead of
being propagated as `SynthesisError`. -/
theorem c9_unwrap_panics :
    generate_proof_with_witness
        (fun _ => (Except.ok () : Except String Unit))
        [-(bn254_p : Int) - 1] = none ∧
      generate_proof_with_witness
        (fun _ => (Except.error "synthesis error" : Except String Unit))
        [0] = none :=
  ⟨rfl, rfl⟩

/-- C10: `compute_tree_root` tests each path-index byte only against zero —
replacing any nonzero byte by 1 leaves the root unchanged — and
`deserialize_witness` accepts a witness whose path-index byte is 255 without
validating membership in {0, 1}. -/
theorem c10_path_index_zero_test_only :
    (∀ (F : Type) (posh : List F → F) (leaf : F) (pe : List F)
        (ipi : List Nat) (hl : Bool) (i b : Nat), ipi.get? i = some b →
        b ≠ 0 →
        compute_tree_root posh leaf pe (ipi.set i 1) hl =
          compute_tree_root posh leaf pe ipi hl) ∧
      deserialize_witness (serialize_witness cw10) = some (cw10, 145) := by
  constructor
  · intro F posh leaf pe ipi hl i b hget hb
    unfold compute_tree_root
    exact treeRootGo_set_nonzero posh _ pe ipi i b hget hb
  · have h := deserialize_witness_serialize_append cw10 []
      (by decide) (by decide)
    rw [List.append_nil, if_pos rfl, serialize_witness_length] at h
    simpa [cw10] using h

/-- Witness for C10: replacing the nonzero path-index byte 255 by 1 leaves
the recomputed root unchanged at a concrete depth-1 input. -/
theorem c10_path_index_zero_test_only_witness :
    compute_tree_root posh11 3 [4] (List.set [255] 0 1) true =
      compute_tree_root posh11 3 [4] [255] true :=
  c10_path_index_zero_test_only.1 (ZMod 11) posh11 3 [4] [255] true 0 255
    (by decide) (by decide)

end Zerokit
